import Mathlib

/-!
Verification of the animation compositing core of `nannou_webp_animation`
(`src/decoder.rs`, `src/utils.rs`, `src/animation.rs`) against its
natural-language specification.

Modelling conventions:
* byte buffers (`&mut [u8]`, `Vec<u8>`) are modelled as a pure function
  `Nat → Nat` (byte address to byte value) paired with an explicit length,
  matching the guarded index arithmetic of the source;
* `u32` arithmetic wraps modulo `2^32` (release-build semantics), written
  `u32mod`;
* the `f32` alpha-blending arithmetic of `blend_frame_onto_canvas` is
  modelled by exact rational rounding (`blendChannel` below).  For all byte
  inputs the exact blend value `(src*sa + dst*(255-sa))/255` is at distance
  at least `1/510` from every half-integer, while the accumulated `f32`
  error of the source expression (two products and a sum of magnitude
  at most 255, plus an alpha quotient) is below `10^-4`; hence `f32`
  round-to-nearest-integer and exact rational rounding agree on every
  reachable input, and the model is extensionally exact;
* the external libwebp primitives (`WebPDemux`, `WebPDemuxGetFrame` /
  `WebPDemuxNextFrame`, `WebPDecodeRGBA`) are external collaborators per
  spec section 2; their observable outcomes are inputs of the model
  (`Option Demuxed`, the `tiles` list, each tile's `decoded` field).
-/

/-- `u32` wrap-around arithmetic (release-build Rust semantics). -/
def u32mod (n : Nat) : Nat := n % 4294967296

/-- One colour channel of the source-over blend of `blend_frame_onto_canvas`
(`decoder.rs` lines 290-297): `(src*a + dst*(1-a)).round()` with
`a = sa/255`, as exact rational rounding to the nearest integer
(`⌊x + 1/2⌋`, which agrees with Rust `f32::round` on every reachable
value, see the header comment). -/
def blendChannel (src dst sa : Nat) : Nat :=
  (2 * (src * sa + dst * (255 - sa)) + 255) / 510

/-- Body of the inner loop of `clear_canvas_area` (`decoder.rs` lines
236-240): compute the byte index of pixel `(x, y)` in `u32` arithmetic and,
if the four pixel bytes fit inside the canvas, overwrite them with
transparent `(0,0,0,0)`. -/
def clearCell (clen canvas_width x y : Nat) (c : Nat → Nat) : Nat → Nat :=
  let idx := u32mod (u32mod (y * canvas_width + x) * 4)
  if idx + 4 ≤ clen then
    fun i => if idx ≤ i ∧ i < idx + 4 then 0 else c i
  else c

/-- `clear_canvas_area` (`decoder.rs` lines 226-243): double loop
`for y in y_offset..(y_offset + height)`, `for x in x_offset..(x_offset +
width)` over `clearCell`.  The Rust ranges use wrapping `u32` addition for
the end bound and are empty when the end is not above the start, which is
exactly `List.range' s (u32mod (s + n) - s)`. -/
def clear_canvas_area (c : Nat → Nat) (clen canvas_width x_offset y_offset width height : Nat) :
    Nat → Nat :=
  (List.range' y_offset (u32mod (y_offset + height) - y_offset)).foldl
    (fun c y =>
      (List.range' x_offset (u32mod (x_offset + width) - x_offset)).foldl
        (fun c x => clearCell clen canvas_width x y c) c)
    c

/-- Body of the inner loop of `blend_frame_onto_canvas` (`decoder.rs` lines
271-303): map `(x, y)` to canvas coordinates, skip the pixel when it falls
outside the canvas or either 4-byte group falls outside its buffer, then
either alpha-blend (`blend = true`: the three colour channels through
`blendChannel` with the source alpha, and the alpha byte forced to 255) or
copy the source pixel verbatim (`blend = false`). -/
def blendCell (clen canvas_width canvas_height : Nat) (frame_data : Nat → Nat)
    (flen frame_width x_offset y_offset : Nat) (blend : Bool) (x y : Nat)
    (c : Nat → Nat) : Nat → Nat :=
  let canvas_x := u32mod (x + x_offset)
  let canvas_y := u32mod (y + y_offset)
  if canvas_x ≥ canvas_width ∨ canvas_y ≥ canvas_height then c
  else
    let canvas_idx := u32mod (u32mod (canvas_y * canvas_width + canvas_x) * 4)
    let frame_idx := u32mod (u32mod (y * frame_width + x) * 4)
    if canvas_idx + 4 > clen ∨ frame_idx + 4 > flen then c
    else if blend then
      fun i =>
        if i = canvas_idx + 3 then 255
        else if canvas_idx ≤ i ∧ i < canvas_idx + 3 then
          blendChannel (frame_data (frame_idx + (i - canvas_idx))) (c i)
            (frame_data (frame_idx + 3))
        else c i
    else
      fun i =>
        if canvas_idx ≤ i ∧ i < canvas_idx + 4 then
          frame_data (frame_idx + (i - canvas_idx))
        else c i

/-- `blend_frame_onto_canvas` (`decoder.rs` lines 258-306): double loop
`for y in 0..frame_height`, `for x in 0..frame_width` over `blendCell`. -/
def blend_frame_onto_canvas (c : Nat → Nat) (clen canvas_width canvas_height : Nat)
    (frame_data : Nat → Nat) (flen frame_width frame_height x_offset y_offset : Nat)
    (blend : Bool) : Nat → Nat :=
  (List.range' 0 frame_height).foldl
    (fun c y =>
      (List.range' 0 frame_width).foldl
        (fun c x =>
          blendCell clen canvas_width canvas_height frame_data flen frame_width
            x_offset y_offset blend x y c)
        c)
    c

/-- The image value produced by `create_image_from_raw` (`utils.rs`):
a `DynamicImage::ImageRgba8` wrapping the raw byte buffer. -/
structure OutImage where
  width : Nat
  height : Nat
  data : Nat → Nat

/-- `create_image_from_raw` (`utils.rs` lines 28-31): delegates to
`ImageBuffer::from_raw`, which succeeds exactly when the buffer holds at
least `width * height * 4` bytes (the length check of the `image` crate;
the checked `usize` product cannot overflow for the value ranges the model
quantifies over). -/
def create_image_from_raw (width height : Nat) (rgba_data : Nat → Nat) (dlen : Nat) :
    Option OutImage :=
  if width * height * 4 ≤ dlen then some ⟨width, height, rgba_data⟩ else none

/-- One step of the libwebp frame iterator (`WebPIterator`), as observed by
the loop of `WebpDecoder::decode`: the placement metadata
(`x_offset`, `y_offset`, `width`, `height` after the `as u32` casts),
the two per-frame flags, the raw `duration` field, and the outcome of
`WebPDecodeRGBA` on the fragment (`none` models a null return;
`some (fw, fh, px)` the decoded dimensions and RGBA bytes). -/
structure Tile where
  x_offset : Nat
  y_offset : Nat
  width : Nat
  height : Nat
  dispose_background : Bool
  blend : Bool
  duration : Nat
  decoded : Option (Nat × Nat × (Nat → Nat))

/-- The observable outcome of a successful `WebPDemux` on a byte buffer:
canvas features and the tile sequence the iterator will yield. -/
structure Demuxed where
  canvas_width : Nat
  canvas_height : Nat
  frame_count : Nat
  tiles : List Tile

/-- `WebpFrame` (`frame.rs`): a composited snapshot plus its display
duration in milliseconds. -/
structure OutFrame where
  image : OutImage
  duration : Nat

/-- Resource log for the handles of `WebpDecoder::decode`: whether
`WebPDemuxDelete` and `WebPDemuxReleaseIterator` were called before the
function returned. -/
structure RLog where
  demuxReleased : Bool
  iterReleased : Bool

/-- The frame loop of `WebpDecoder::decode` (`decoder.rs` lines 101-188),
one recursive step per iterator frame.  Per tile, in source order: decode
the fragment (null aborts with "Failed to decode frame" after releasing
iterator and demuxer), apply the background-disposal clear keyed on the
*current* tile's `dispose_method` and rectangle, blend the decoded pixels,
snapshot through `create_image_from_raw` (whose failure propagates through
`?` *without* any release call), and push the frame with the iterator's
`duration` field.  On exhaustion the iterator and demuxer are released and
the accumulated frames returned. -/
def runTiles (canvas_width canvas_height clen : Nat) :
    List Tile → (Nat → Nat) → List OutFrame → Except String (List OutFrame) × RLog
  | [], _, frames => (.ok frames, ⟨true, true⟩)
  | t :: rest, canvas, frames =>
    match t.decoded with
    | none => (.error "Failed to decode frame", ⟨true, true⟩)
    | some (frame_width, frame_height, pixels) =>
      let canvas1 :=
        if t.dispose_background then
          clear_canvas_area canvas clen canvas_width t.x_offset t.y_offset t.width t.height
        else canvas
      let canvas2 :=
        blend_frame_onto_canvas canvas1 clen canvas_width canvas_height pixels
          (frame_width * frame_height * 4) frame_width frame_height
          t.x_offset t.y_offset t.blend
      match create_image_from_raw canvas_width canvas_height canvas2 clen with
      | none => (.error "Failed to create image from canvas data", ⟨false, false⟩)
      | some img =>
          runTiles canvas_width canvas_height clen rest canvas2
            (frames ++ [⟨img, t.duration⟩])

/-- `WebpDecoder::decode` after a successful `WebPDemux` (`decoder.rs`
lines 79-189): read the canvas features and frame count, fail with
"No frames found in the animation" when the count is zero (releasing the
demuxer), allocate the canvas `vec![0u8; (W * H * 4) as usize]` (wrapping
`u32` product), fail with "Failed to get frames from WebP animation" when
`WebPDemuxGetFrame` yields nothing, otherwise run the frame loop.  The
second component records which handles were released on the taken path. -/
def decodeCore (d : Demuxed) : Except String (List OutFrame) × RLog :=
  if d.frame_count = 0 then (.error "No frames found in the animation", ⟨true, true⟩)
  else
    let clen := u32mod (d.canvas_width * d.canvas_height * 4)
    match d.tiles with
    | [] => (.error "Failed to get frames from WebP animation", ⟨true, true⟩)
    | t :: rest =>
        runTiles d.canvas_width d.canvas_height clen (t :: rest) (fun _ => 0) []

/-- `WebpDecoder::decode` (`decoder.rs` lines 59-190) from the outcome of
`WebPDemux` on the input byte buffer: a null demuxer yields
"Failed to create WebPDemuxer" (the spec's `MalformedContainer`), otherwise
the decode core runs. -/
def WebpDecoder.decode (demuxResult : Option Demuxed) : Except String (List OutFrame) :=
  match demuxResult with
  | none => .error "Failed to create WebPDemuxer"
  | some d => (decodeCore d).1

/-- `WebpAnimation` (`animation.rs`): the playback state relevant to frame
indexing.  `last_frame_time` and the GPU textures are external to the
model; the elapsed-time comparison of `update` is abstracted as the
`advance` argument. -/
structure WebpAnimation where
  frames : List OutFrame
  current_frame_index : Nat
  is_looping : Bool

/-- `WebpAnimation::from_file` (`animation.rs` lines 40-60) from the
decoder's result: propagate a decode error, reject an empty frame list,
otherwise start at frame index 0 with looping enabled. -/
def WebpAnimation.from_file (decodeResult : Except String (List OutFrame)) :
    Except String WebpAnimation :=
  match decodeResult with
  | .error e => .error e
  | .ok frames =>
    if frames.isEmpty then .error "No frames found in the animation"
    else .ok ⟨frames, 0, true⟩

/-- `WebpAnimation::update` (`animation.rs` lines 66-81).  `advance` models
`last_frame_time.elapsed() >= duration`; when it holds the index is
incremented, wrapping to 0 (looping) or clamping to `frames.len() - 1`
(non-looping) when it reaches `frames.len()`. -/
def WebpAnimation.update (a : WebpAnimation) (advance : Bool) : WebpAnimation :=
  if advance then
    let idx := a.current_frame_index + 1
    if idx ≥ a.frames.length then
      if a.is_looping then { a with current_frame_index := 0 }
      else { a with current_frame_index := a.frames.length - 1 }
    else { a with current_frame_index := idx }
  else a

/-- Modelled from the spec (section 4.4): the compositing algorithm as the
specification words it — before blending the current tile, apply the
disposal method recorded on the *previous* tile to the previous tile's
rectangle, the step being skipped for tile index 0 — reusing the
pixel-level clear and blend operations.  Used only to compare the source's
compositor against the claimed disposal semantics. -/
def specCompose (canvas_width canvas_height clen : Nat) :
    Option Tile → List Tile → (Nat → Nat) → List (Nat → Nat)
  | _, [], _ => []
  | prev, t :: rest, canvas =>
    match t.decoded with
    | none => []
    | some (fw, fh, px) =>
      let canvas1 :=
        match prev with
        | some p =>
          if p.dispose_background then
            clear_canvas_area canvas clen canvas_width p.x_offset p.y_offset p.width p.height
          else canvas
        | none => canvas
      let canvas2 :=
        blend_frame_onto_canvas canvas1 clen canvas_width canvas_height px
          (fw * fh * 4) fw fh t.x_offset t.y_offset t.blend
      canvas2 :: specCompose canvas_width canvas_height clen (some t) rest canvas2

/-- The four bytes of pixel `p` of frame `f` of a decode result, as a
decidably comparable value. -/
def framePixel (r : Except String (List OutFrame)) (f p : Nat) :
    Option (Nat × Nat × Nat × Nat) :=
  match r with
  | .error _ => none
  | .ok fs =>
    match fs[f]? with
    | none => none
    | some fr =>
      some (fr.image.data (4 * p), fr.image.data (4 * p + 1),
        fr.image.data (4 * p + 2), fr.image.data (4 * p + 3))

/-- The four bytes of pixel `p` of the `f`-th canvas of a spec-side
composited sequence. -/
def specFramePixel (cs : List (Nat → Nat)) (f p : Nat) : Option (Nat × Nat × Nat × Nat) :=
  match cs[f]? with
  | none => none
  | some c => some (c (4 * p), c (4 * p + 1), c (4 * p + 2), c (4 * p + 3))

/-- The duration list of a decode result. -/
def durationsOf (r : Except String (List OutFrame)) : Option (List Nat) :=
  match r with
  | .error _ => none
  | .ok fs => some (fs.map OutFrame.duration)

/-- The error message of a decode result, when it is an error. -/
def resultMsg (r : Except String (List OutFrame)) : Option String :=
  match r with
  | .error e => some e
  | .ok _ => none

/-- A decoded 1×1 RGBA tile holding the single pixel `(r, g, b, a)`. -/
def onePixel (r g b a : Nat) : Nat → Nat :=
  fun i => if i = 0 then r else if i = 1 then g else if i = 2 then b
    else if i = 3 then a else 0

/-- Concrete two-frame animation on a 2×1 canvas exercising the disposal
step: tile 0 paints pixel 0 opaque red with `dispose_method = Background`
recorded on it, tile 1 paints pixel 1 opaque green with no disposal of its
own. -/
def c1demux : Demuxed where
  canvas_width := 2
  canvas_height := 1
  frame_count := 2
  tiles :=
    [⟨0, 0, 1, 1, true, false, 10, some (1, 1, onePixel 255 0 0 255)⟩,
     ⟨1, 0, 1, 1, false, false, 20, some (1, 1, onePixel 0 255 0 255)⟩]

/-- Concrete single-frame animation on a 1×1 canvas whose iterator reports
`duration = 42`. -/
def c2demux : Demuxed where
  canvas_width := 1
  canvas_height := 1
  frame_count := 1
  tiles := [⟨0, 0, 1, 1, false, false, 42, some (1, 1, onePixel 0 0 0 255)⟩]

/-- Concrete single-frame animation whose declared canvas is 65536×16384
pixels, so that the `u32` product `W * H * 4` in the canvas allocation
wraps to 0 while the snapshot step computes the unwrapped size; the
decoded tile itself is empty (0×0). -/
def c7demux : Demuxed where
  canvas_width := 65536
  canvas_height := 16384
  frame_count := 1
  tiles := [⟨0, 0, 0, 0, false, false, 0, some (0, 0, fun _ => 0)⟩]

/-- Concrete valid single-frame animation used to witness the frame-count
property. -/
def c4demux : Demuxed where
  canvas_width := 1
  canvas_height := 1
  frame_count := 1
  tiles := [⟨0, 0, 1, 1, false, false, 5, some (1, 1, onePixel 0 0 0 255)⟩]

/-- Concrete animation whose only tile fails to decode
(`WebPDecodeRGBA` returns null). -/
def c8demux : Demuxed where
  canvas_width := 1
  canvas_height := 1
  frame_count := 1
  tiles := [⟨0, 0, 1, 1, false, false, 0, none⟩]

/-- Concrete valid single-frame animation used to witness determinism. -/
def c9demux : Demuxed where
  canvas_width := 1
  canvas_height := 1
  frame_count := 1
  tiles := [⟨0, 0, 1, 1, false, true, 3, some (1, 1, onePixel 9 8 7 255)⟩]

/-- The frame list `c9demux` decodes to. -/
def c9frames : List OutFrame :=
  match WebpDecoder.decode (some c9demux) with
  | .ok fs => fs
  | .error _ => []

/-- The frame list `c2demux` decodes to. -/
def c2frames : List OutFrame :=
  match WebpDecoder.decode (some c2demux) with
  | .ok fs => fs
  | .error _ => []

/-- A concrete frame used to witness the playback-index invariant. -/
def c10frame : OutFrame := ⟨⟨1, 1, fun _ => 0⟩, 7⟩

/-! ### Generic lemmas about byte-buffer folds -/

/-- A fold whose every step leaves the positions satisfying `J` unchanged
leaves them unchanged overall. -/
theorem foldl_preserve_pred {α : Type} (step : (Nat → Nat) → α → Nat → Nat)
    (J : Nat → Prop) (l : List α) (c : Nat → Nat)
    (h : ∀ c a, a ∈ l → ∀ j, J j → step c a j = c j) :
    ∀ j, J j → l.foldl step c j = c j := by
  induction l generalizing c with
  | nil => intro j hj; rfl
  | cons a l ih =>
    intro j hj
    rw [List.foldl_cons,
      ih (step c a) (fun c b hb => h c b (List.mem_cons_of_mem a hb)) j hj]
    exact h c a (List.mem_cons_self a l) j hj

/-- Value of a fold at a position written by exactly one step: the steps
before `a` leave the read-set `J` unchanged, step `a` computes `v` from any
state agreeing with the initial one on `J`, and the steps after `a` leave
position `i` unchanged. -/
theorem foldl_pinpoint {α : Type} (step : (Nat → Nat) → α → Nat → Nat)
    (l1 l2 : List α) (a : α) (c0 : Nat → Nat) (i v : Nat) (J : Nat → Prop)
    (h1 : ∀ c b, b ∈ l1 → ∀ j, J j → step c b j = c j)
    (h2 : ∀ c, (∀ j, J j → c j = c0 j) → step c a i = v)
    (h3 : ∀ c b, b ∈ l2 → step c b i = c i) :
    (l1 ++ a :: l2).foldl step c0 i = v := by
  rw [List.foldl_append, List.foldl_cons]
  have hpre : ∀ j, J j → l1.foldl step c0 j = c0 j :=
    foldl_preserve_pred step J l1 c0 h1
  have hv : step (l1.foldl step c0) a i = v := h2 _ hpre
  rw [foldl_preserve_pred step (fun j => j = i) l2 _
    (by intro c b hb j hj; subst hj; exact h3 c b hb) i rfl, hv]

/-- Splitting an arithmetic range at an interior point. -/
theorem range'_split_at (s n k : Nat) (hk1 : s ≤ k) (hk2 : k < s + n) :
    List.range' s n =
      List.range' s (k - s) ++ k :: List.range' (k + 1) (n - (k - s) - 1) := by
  obtain ⟨m, hm⟩ : ∃ m, n - (k - s) = m + 1 := ⟨n - (k - s) - 1, by omega⟩
  have h3 : List.range' (s + (k - s)) (n - (k - s)) =
      k :: List.range' (k + 1) (n - (k - s) - 1) := by
    rw [show s + (k - s) = k from by omega, hm, List.range'_succ, Nat.add_sub_cancel]
  calc List.range' s n = List.range' s ((n - (k - s)) + (k - s)) := by
        rw [show (n - (k - s)) + (k - s) = n from by omega]
    _ = List.range' s (k - s) ++ List.range' (s + (k - s)) (n - (k - s)) :=
        (List.range'_append_1 s (k - s) (n - (k - s))).symm
    _ = List.range' s (k - s) ++ k :: List.range' (k + 1) (n - (k - s) - 1) := by rw [h3]

/-- Uniqueness of the row/column decomposition of a pixel index. -/
theorem rowcol_unique {W x px y py : Nat} (hx : x < W) (hpx : px < W)
    (h : y * W + x = py * W + px) : y = py ∧ x = px := by
  have hW : 0 < W := by omega
  have hdiv : ∀ a b : Nat, b < W → (a * W + b) / W = a := by
    intro a b hb
    rw [Nat.mul_comm a W, Nat.mul_add_div hW, Nat.div_eq_of_lt hb]
    omega
  have hy : y = py := by rw [← hdiv y x hx, ← hdiv py px hpx, h]
  refine ⟨hy, ?_⟩
  rw [hy] at h
  omega

/-- A pixel in row `a`, column `b` lies inside a `W × H` canvas. -/
theorem pixel_lt (W H a b : Nat) (ha : a < H) (hb : b < W) :
    a * W + b < W * H := by
  have h1 : (a + 1) * W ≤ H * W := Nat.mul_le_mul_right W ha
  have h2 : (a + 1) * W = a * W + W := by ring
  have h3 : H * W = W * H := Nat.mul_comm H W
  omega

/-- `u32` arithmetic is exact below `2^32`. -/
theorem u32mod_eq {n : Nat} (h : n < 4294967296) : u32mod n = n :=
  Nat.mod_eq_of_lt h

/-- `u32mod` never exceeds its argument. -/
theorem u32mod_le (n : Nat) : u32mod n ≤ n := Nat.mod_le n 4294967296

/-- `u32mod` is below `2^32`. -/
theorem u32mod_lt (n : Nat) : u32mod n < 4294967296 :=
  Nat.mod_lt n (by omega)

/-! ### Case analyses of the two per-pixel operations -/

/-- `clearCell` either leaves a byte unchanged, or its guard passed, the
byte lies in the cell's 4-byte range, and the byte was zeroed. -/
theorem clearCell_cases (clen W x y : Nat) (c : Nat → Nat) (i : Nat) :
    clearCell clen W x y c i = c i ∨
      (u32mod (u32mod (y * W + x) * 4) + 4 ≤ clen ∧
       u32mod (u32mod (y * W + x) * 4) ≤ i ∧
       i < u32mod (u32mod (y * W + x) * 4) + 4 ∧
       clearCell clen W x y c i = 0) := by
  unfold clearCell
  by_cases hg : u32mod (u32mod (y * W + x) * 4) + 4 ≤ clen
  · by_cases hin : u32mod (u32mod (y * W + x) * 4) ≤ i ∧
        i < u32mod (u32mod (y * W + x) * 4) + 4
    · exact Or.inr ⟨hg, hin.1, hin.2, by simp [hg, hin]⟩
    · exact Or.inl (by simp [hg, hin])
  · exact Or.inl (by simp [hg])

/-- `clearCell` zeroes every byte of its range once its guard passes. -/
theorem clearCell_zero (clen W x y : Nat) (c : Nat → Nat) (i : Nat)
    (hg : u32mod (u32mod (y * W + x) * 4) + 4 ≤ clen)
    (h1 : u32mod (u32mod (y * W + x) * 4) ≤ i)
    (h2 : i < u32mod (u32mod (y * W + x) * 4) + 4) :
    clearCell clen W x y c i = 0 := by
  unfold clearCell
  simp [hg, h1, h2]

/-- `blendCell` either leaves a byte unchanged, or all its guards passed
and the byte lies in the cell's 4-byte canvas range. -/
theorem blendCell_cases (clen W H : Nat) (fr : Nat → Nat) (flen fw x0 y0 : Nat)
    (blend : Bool) (x y : Nat) (c : Nat → Nat) (i : Nat) :
    blendCell clen W H fr flen fw x0 y0 blend x y c i = c i ∨
      (u32mod (x + x0) < W ∧ u32mod (y + y0) < H ∧
       u32mod (u32mod (u32mod (y + y0) * W + u32mod (x + x0)) * 4) + 4 ≤ clen ∧
       u32mod (u32mod (y * fw + x) * 4) + 4 ≤ flen ∧
       u32mod (u32mod (u32mod (y + y0) * W + u32mod (x + x0)) * 4) ≤ i ∧
       i < u32mod (u32mod (u32mod (y + y0) * W + u32mod (x + x0)) * 4) + 4) := by
  simp only [blendCell]
  by_cases hg1 : u32mod (x + x0) ≥ W ∨ u32mod (y + y0) ≥ H
  · rw [if_pos hg1]; exact Or.inl rfl
  · rw [if_neg hg1]
    push_neg at hg1
    by_cases hg2 : u32mod (u32mod (u32mod (y + y0) * W + u32mod (x + x0)) * 4) + 4 > clen ∨
        u32mod (u32mod (y * fw + x) * 4) + 4 > flen
    · rw [if_pos hg2]; exact Or.inl rfl
    · rw [if_neg hg2]
      push_neg at hg2
      by_cases hin : u32mod (u32mod (u32mod (y + y0) * W + u32mod (x + x0)) * 4) ≤ i ∧
          i < u32mod (u32mod (u32mod (y + y0) * W + u32mod (x + x0)) * 4) + 4
      · exact Or.inr ⟨hg1.1, hg1.2, hg2.1, hg2.2, hin.1, hin.2⟩
      · refine Or.inl ?_
        cases blend with
        | true =>
          rw [if_pos rfl]
          rw [if_neg (show ¬ i = u32mod (u32mod (u32mod (y + y0) * W + u32mod (x + x0)) * 4) + 3 from by omega),
            if_neg (show ¬ (u32mod (u32mod (u32mod (y + y0) * W + u32mod (x + x0)) * 4) ≤ i ∧
              i < u32mod (u32mod (u32mod (y + y0) * W + u32mod (x + x0)) * 4) + 3) from by omega)]
        | false =>
          rw [if_neg (show ¬ false = true from by simp)]
          rw [if_neg hin]

/-- Value of `blendCell` on the four bytes of its own cell once every
guard passes. -/
theorem blendCell_values (clen W H : Nat) (fr : Nat → Nat) (flen fw x0 y0 : Nat)
    (blend : Bool) (x y : Nat) (c : Nat → Nat) (cidx fidx : Nat)
    (hci : cidx = u32mod (u32mod (u32mod (y + y0) * W + u32mod (x + x0)) * 4))
    (hfi : fidx = u32mod (u32mod (y * fw + x) * 4))
    (hcx : u32mod (x + x0) < W) (hcy : u32mod (y + y0) < H)
    (hg1 : cidx + 4 ≤ clen) (hg2 : fidx + 4 ≤ flen) :
    (blend = true →
      blendCell clen W H fr flen fw x0 y0 blend x y c (cidx + 3) = 255 ∧
      ∀ ch, ch < 3 →
        blendCell clen W H fr flen fw x0 y0 blend x y c (cidx + ch) =
          blendChannel (fr (fidx + ch)) (c (cidx + ch)) (fr (fidx + 3))) ∧
    (blend = false →
      ∀ ch, ch < 4 →
        blendCell clen W H fr flen fw x0 y0 blend x y c (cidx + ch) = fr (fidx + ch)) := by
  subst hci
  subst hfi
  constructor
  · intro hb
    subst hb
    constructor
    · simp only [blendCell]
      rw [if_neg (show ¬ (u32mod (x + x0) ≥ W ∨ u32mod (y + y0) ≥ H) from by omega),
        if_neg (show ¬ (u32mod (u32mod (u32mod (y + y0) * W + u32mod (x + x0)) * 4) + 4 > clen ∨
          u32mod (u32mod (y * fw + x) * 4) + 4 > flen) from by omega)]
      simp
    · intro ch hch
      simp only [blendCell]
      rw [if_neg (show ¬ (u32mod (x + x0) ≥ W ∨ u32mod (y + y0) ≥ H) from by omega),
        if_neg (show ¬ (u32mod (u32mod (u32mod (y + y0) * W + u32mod (x + x0)) * 4) + 4 > clen ∨
          u32mod (u32mod (y * fw + x) * 4) + 4 > flen) from by omega)]
      have h3 : ¬ (u32mod (u32mod (u32mod (y + y0) * W + u32mod (x + x0)) * 4) + ch =
          u32mod (u32mod (u32mod (y + y0) * W + u32mod (x + x0)) * 4) + 3) := by omega
      have h4 : u32mod (u32mod (u32mod (y + y0) * W + u32mod (x + x0)) * 4) ≤
          u32mod (u32mod (u32mod (y + y0) * W + u32mod (x + x0)) * 4) + ch ∧
          u32mod (u32mod (u32mod (y + y0) * W + u32mod (x + x0)) * 4) + ch <
          u32mod (u32mod (u32mod (y + y0) * W + u32mod (x + x0)) * 4) + 3 := by omega
      simp [h3, h4]
  · intro hb
    subst hb
    intro ch hch
    simp only [blendCell]
    rw [if_neg (show ¬ (u32mod (x + x0) ≥ W ∨ u32mod (y + y0) ≥ H) from by omega),
      if_neg (show ¬ (u32mod (u32mod (u32mod (y + y0) * W + u32mod (x + x0)) * 4) + 4 > clen ∨
        u32mod (u32mod (y * fw + x) * 4) + 4 > flen) from by omega)]
    have h4 : u32mod (u32mod (u32mod (y + y0) * W + u32mod (x + x0)) * 4) ≤
        u32mod (u32mod (u32mod (y + y0) * W + u32mod (x + x0)) * 4) + ch ∧
        u32mod (u32mod (u32mod (y + y0) * W + u32mod (x + x0)) * 4) + ch <
        u32mod (u32mod (u32mod (y + y0) * W + u32mod (x + x0)) * 4) + 4 := by omega
    simp [h4]

/-- `blendCell` reads its input buffer only at the byte it rewrites. -/
theorem blendCell_congr (clen W H : Nat) (fr : Nat → Nat) (flen fw x0 y0 : Nat)
    (blend : Bool) (x y : Nat) (c1 c2 : Nat → Nat) (i : Nat) (h : c1 i = c2 i) :
    blendCell clen W H fr flen fw x0 y0 blend x y c1 i =
      blendCell clen W H fr flen fw x0 y0 blend x y c2 i := by
  simp only [blendCell]
  by_cases hg1 : u32mod (x + x0) ≥ W ∨ u32mod (y + y0) ≥ H
  · rw [if_pos hg1, if_pos hg1]; exact h
  · rw [if_neg hg1, if_neg hg1]
    by_cases hg2 : u32mod (u32mod (u32mod (y + y0) * W + u32mod (x + x0)) * 4) + 4 > clen ∨
        u32mod (u32mod (y * fw + x) * 4) + 4 > flen
    · rw [if_pos hg2, if_pos hg2]; exact h
    · rw [if_neg hg2, if_neg hg2]
      cases blend
      · rw [if_neg (show ¬ false = true from by simp),
          if_neg (show ¬ false = true from by simp)]
        simp [h]
      · rw [if_pos rfl, if_pos rfl]
        simp [h]

/-- C6: for every tile whose disposal step runs with method Background,
under the iterator's placement invariant (`x_offset + width ≤ W`,
`y_offset + height ≤ H`, with the canvas buffer of `W * H * 4` bytes
representable), `clear_canvas_area` sets every byte of every canvas pixel
inside the placement rectangle to 0 (fully transparent `(0,0,0,0)`) and
leaves every byte of every canvas pixel outside that rectangle — in
particular every pixel of any other row — unchanged. -/
theorem clear_canvas_area_pixel (c : Nat → Nat) (W H x0 y0 w h px py ch : Nat)
    (hWH : W * H * 4 < 4294967296)
    (hxw : x0 + w ≤ W) (hyh : y0 + h ≤ H)
    (hpx : px < W) (hpy : py < H) (hch : ch < 4) :
    clear_canvas_area c (u32mod (W * H * 4)) W x0 y0 w h (4 * (py * W + px) + ch) =
      if x0 ≤ px ∧ px < x0 + w ∧ y0 ≤ py ∧ py < y0 + h then 0
      else c (4 * (py * W + px) + ch) := by
  have hW1 : 0 < W := by omega
  have hH1 : 0 < H := by omega
  have hWH1 : W * H ≤ W * H * 4 := by omega
  have hWle : W ≤ W * H := Nat.le_mul_of_pos_right W hH1
  have hHle : H ≤ W * H := Nat.le_mul_of_pos_left H hW1
  have hy32 : y0 + h < 4294967296 := by omega
  have hx32 : x0 + w < 4294967296 := by omega
  have hp : py * W + px < W * H := pixel_lt W H py px hpy hpx
  -- every cell other than (px, py) leaves our byte unchanged
  have hcell : ∀ (c' : Nat → Nat) (x' y' : Nat), y0 ≤ y' → y' < y0 + h →
      x0 ≤ x' → x' < x0 + w → ¬ (x' = px ∧ y' = py) →
      clearCell (u32mod (W * H * 4)) W x' y' c' (4 * (py * W + px) + ch) =
        c' (4 * (py * W + px) + ch) := by
    intro c' x' y' hy1 hy2 hx1 hx2 hne
    rcases clearCell_cases (u32mod (W * H * 4)) W x' y' c' (4 * (py * W + px) + ch) with
      heq | ⟨_, hle, hlt, _⟩
    · exact heq
    · exfalso
      have hq : y' * W + x' < W * H := pixel_lt W H y' x' (by omega) (by omega)
      rw [u32mod_eq (show y' * W + x' < 4294967296 from by omega),
        u32mod_eq (show (y' * W + x') * 4 < 4294967296 from by omega)] at hle hlt
      have hqp : y' * W + x' = py * W + px := by omega
      have := rowcol_unique (show x' < W from by omega) hpx hqp
      omega
  -- the cell (px, py) zeroes our byte whatever the canvas holds
  have hidx1 : u32mod (py * W + px) = py * W + px :=
    u32mod_eq (by omega)
  have hidx2 : u32mod ((py * W + px) * 4) = (py * W + px) * 4 :=
    u32mod_eq (by omega)
  have hzero : ∀ c' : Nat → Nat,
      clearCell (u32mod (W * H * 4)) W px py c' (4 * (py * W + px) + ch) = 0 := by
    intro c'
    refine clearCell_zero _ _ _ _ _ _ ?_ ?_ ?_
    · rw [hidx1, hidx2, u32mod_eq hWH]; omega
    · rw [hidx1, hidx2]; omega
    · rw [hidx1, hidx2]; omega
  unfold clear_canvas_area
  rw [u32mod_eq hy32, u32mod_eq hx32, Nat.add_sub_cancel_left, Nat.add_sub_cancel_left]
  by_cases hin : x0 ≤ px ∧ px < x0 + w ∧ y0 ≤ py ∧ py < y0 + h
  · rw [if_pos hin]
    rw [range'_split_at y0 h py (by omega) (by omega)]
    refine foldl_pinpoint _ _ _ _ _ _ _ (fun j => j = 4 * (py * W + px) + ch) ?_ ?_ ?_
    · intro crow y' hy' j hj
      subst hj
      have hmem := (List.mem_range'_1).mp hy'
      refine foldl_preserve_pred _ (fun j => j = 4 * (py * W + px) + ch) _ crow ?_ _ rfl
      intro c'' x' hx' j hj
      subst hj
      have hmx := (List.mem_range'_1).mp hx'
      exact hcell c'' x' y' (by omega) (by omega) (by omega) (by omega) (by omega)
    · intro crow _
      rw [range'_split_at x0 w px (by omega) (by omega)]
      refine foldl_pinpoint _ _ _ _ _ _ _ (fun j => j = 4 * (py * W + px) + ch) ?_ ?_ ?_
      · intro c'' x' hx' j hj
        subst hj
        have hmx := (List.mem_range'_1).mp hx'
        exact hcell c'' x' py (by omega) (by omega) (by omega) (by omega) (by omega)
      · intro c'' _
        exact hzero c''
      · intro c'' x' hx'
        have hmx := (List.mem_range'_1).mp hx'
        exact hcell c'' x' py (by omega) (by omega) (by omega) (by omega) (by omega)
    · intro crow y' hy'
      have hmem := (List.mem_range'_1).mp hy'
      refine foldl_preserve_pred _ (fun j => j = 4 * (py * W + px) + ch) _ crow ?_ _ rfl
      intro c'' x' hx' j hj
      subst hj
      have hmx := (List.mem_range'_1).mp hx'
      exact hcell c'' x' y' (by omega) (by omega) (by omega) (by omega) (by omega)
  · rw [if_neg hin]
    refine foldl_preserve_pred _ (fun j => j = 4 * (py * W + px) + ch) _ c ?_ _ rfl
    intro crow y' hy' j hj
    subst hj
    have hmem := (List.mem_range'_1).mp hy'
    refine foldl_preserve_pred _ (fun j => j = 4 * (py * W + px) + ch) _ crow ?_ _ rfl
    intro c'' x' hx' j hj
    subst hj
    have hmx := (List.mem_range'_1).mp hx'
    exact hcell c'' x' y' (by omega) (by omega) (by omega) (by omega) (by omega)

/-- The double loop of `blend_frame_onto_canvas` acts on the four bytes of
a given in-bounds destination pixel exactly as the single `blendCell` for
that pixel acts on the initial canvas: every other loop iteration writes
only to other pixels' bytes. -/
theorem blend_frame_onto_canvas_pixel (c fr : Nat → Nat) (W H fw fh x0 y0 : Nat)
    (blend : Bool) (x y : Nat)
    (hWH : W * H * 4 < 4294967296)
    (hfwh : fw * fh * 4 < 4294967296)
    (hx : x < fw) (hy : y < fh)
    (hcx : x + x0 < W) (hcy : y + y0 < H) :
    ∀ i, 4 * ((y + y0) * W + (x + x0)) ≤ i → i < 4 * ((y + y0) * W + (x + x0)) + 4 →
      blend_frame_onto_canvas c (u32mod (W * H * 4)) W H fr (fw * fh * 4) fw fh x0 y0 blend i =
        blendCell (u32mod (W * H * 4)) W H fr (fw * fh * 4) fw x0 y0 blend x y c i := by
  have hW1 : 0 < W := by omega
  have hH1 : 0 < H := by omega
  have hfw1 : 0 < fw := by omega
  have hfh1 : 0 < fh := by omega
  have hWH1 : W * H ≤ W * H * 4 := by omega
  have hfwh1 : fw * fh ≤ fw * fh * 4 := by omega
  have hWle : W ≤ W * H := Nat.le_mul_of_pos_right W hH1
  have hHle : H ≤ W * H := Nat.le_mul_of_pos_left H hW1
  have hfwle : fw ≤ fw * fh := Nat.le_mul_of_pos_right fw hfh1
  have hfhle : fh ≤ fw * fh := Nat.le_mul_of_pos_left fh hfw1
  have hfwlt : fw < 4294967296 := by omega
  have hfhlt : fh < 4294967296 := by omega
  have hpW : (y + y0) * W + (x + x0) < W * H := pixel_lt W H (y + y0) (x + x0) hcy hcx
  -- any loop cell other than (x, y) leaves the bytes of our pixel unchanged
  have hcellne : ∀ (c' : Nat → Nat) (x' y' : Nat), x' < fw → y' < fh →
      ¬ (x' = x ∧ y' = y) → ∀ j, 4 * ((y + y0) * W + (x + x0)) ≤ j →
      j < 4 * ((y + y0) * W + (x + x0)) + 4 →
      blendCell (u32mod (W * H * 4)) W H fr (fw * fh * 4) fw x0 y0 blend x' y' c' j =
        c' j := by
    intro c' x' y' hx' hy' hne j hj1 hj2
    rcases blendCell_cases (u32mod (W * H * 4)) W H fr (fw * fh * 4) fw x0 y0 blend x' y' c' j
      with heq | ⟨hcx', hcy', _, _, hle, hlt⟩
    · exact heq
    · exfalso
      have hq : u32mod (y' + y0) * W + u32mod (x' + x0) < W * H :=
        pixel_lt W H (u32mod (y' + y0)) (u32mod (x' + x0)) hcy' hcx'
      rw [u32mod_eq (show u32mod (y' + y0) * W + u32mod (x' + x0) < 4294967296 from by omega),
        u32mod_eq (show (u32mod (y' + y0) * W + u32mod (x' + x0)) * 4 < 4294967296 from by
          omega)] at hle hlt
      have hqp : u32mod (y' + y0) * W + u32mod (x' + x0) = (y + y0) * W + (x + x0) := by
        omega
      obtain ⟨hyy, hxx⟩ := rowcol_unique hcx' (show x + x0 < W from hcx) hqp
      simp only [u32mod] at hyy hxx
      exact hne ⟨by omega, by omega⟩
  intro i hi1 hi2
  unfold blend_frame_onto_canvas
  rw [range'_split_at 0 fh y (by omega) (by omega)]
  refine foldl_pinpoint _ _ _ _ _ _ _
    (fun j => 4 * ((y + y0) * W + (x + x0)) ≤ j ∧ j < 4 * ((y + y0) * W + (x + x0)) + 4)
    ?_ ?_ ?_
  · intro crow y' hy' j hj
    have hmem := (List.mem_range'_1).mp hy'
    refine foldl_preserve_pred _
      (fun j => 4 * ((y + y0) * W + (x + x0)) ≤ j ∧ j < 4 * ((y + y0) * W + (x + x0)) + 4)
      _ crow ?_ _ hj
    intro c'' x' hx' j' hj'
    have hmx := (List.mem_range'_1).mp hx'
    exact hcellne c'' x' y' (by omega) (by omega) (by omega) j' hj'.1 hj'.2
  · intro crow hagree
    rw [range'_split_at 0 fw x (by omega) (by omega)]
    refine foldl_pinpoint _ _ _ _ _ _ _
      (fun j => 4 * ((y + y0) * W + (x + x0)) ≤ j ∧ j < 4 * ((y + y0) * W + (x + x0)) + 4)
      ?_ ?_ ?_
    · intro c'' x' hx' j' hj'
      have hmx := (List.mem_range'_1).mp hx'
      exact hcellne c'' x' y (by omega) (by omega) (by omega) j' hj'.1 hj'.2
    · intro ccell hagree2
      exact blendCell_congr _ _ _ _ _ _ _ _ _ _ _ _ _ _
        (by rw [hagree2 i ⟨hi1, hi2⟩, hagree i ⟨hi1, hi2⟩])
    · intro c'' x' hx'
      have hmx := (List.mem_range'_1).mp hx'
      exact hcellne c'' x' y (by omega) (by omega) (by omega) i hi1 hi2
  · intro crow y' hy'
    have hmem := (List.mem_range'_1).mp hy'
    refine foldl_preserve_pred _
      (fun j => 4 * ((y + y0) * W + (x + x0)) ≤ j ∧ j < 4 * ((y + y0) * W + (x + x0)) + 4)
      _ crow ?_ _ ⟨hi1, hi2⟩
    intro c'' x' hx' j' hj'
    have hmx := (List.mem_range'_1).mp hx'
    exact hcellne c'' x' y' (by omega) (by omega) (by omega) j' hj'.1 hj'.2

/-! ### Behaviour of the decode loop -/

/-- Whenever the frame loop succeeds, the durations of the produced frames
are exactly the accumulated durations followed by the `duration` fields of
the remaining iterator tiles, in order. -/
theorem runTiles_durations (W H clen : Nat) :
    ∀ (ts : List Tile) (canvas : Nat → Nat) (acc : List OutFrame) (fs : List OutFrame),
      (runTiles W H clen ts canvas acc).1 = .ok fs →
      fs.map OutFrame.duration = acc.map OutFrame.duration ++ ts.map Tile.duration := by
  intro ts
  induction ts with
  | nil =>
    intro canvas acc fs hok
    simp only [runTiles] at hok
    cases hok
    simp
  | cons t rest ih =>
    intro canvas acc fs hok
    cases hdec : t.decoded with
    | none => simp [runTiles, hdec] at hok
    | some trip =>
      obtain ⟨fw2, fh2, px⟩ := trip
      simp only [runTiles, hdec, create_image_from_raw] at hok
      by_cases hfit : W * H * 4 ≤ clen
      · rw [if_pos hfit] at hok
        have := ih _ _ _ hok
        simpa using this
      · rw [if_neg hfit] at hok
        simp at hok

/-- When every remaining tile decodes and the canvas length check passes,
the frame loop succeeds, releases both handles, and emits one frame per
tile. -/
theorem runTiles_ok (W H clen : Nat) (hfit : W * H * 4 ≤ clen) :
    ∀ (ts : List Tile) (canvas : Nat → Nat) (acc : List OutFrame),
      (∀ t ∈ ts, t.decoded ≠ none) →
      ∃ fs, runTiles W H clen ts canvas acc = (.ok fs, ⟨true, true⟩) ∧
        fs.length = acc.length + ts.length := by
  intro ts
  induction ts with
  | nil =>
    intro canvas acc _
    exact ⟨acc, by simp [runTiles], by simp⟩
  | cons t rest ih =>
    intro canvas acc hall
    have hdec := hall t (List.mem_cons_self t rest)
    obtain ⟨trip, htrip⟩ := Option.ne_none_iff_exists'.mp hdec
    obtain ⟨fw2, fh2, px⟩ := trip
    obtain ⟨fs, hrun, hlen⟩ :=
      ih (blend_frame_onto_canvas
            (if t.dispose_background then
              clear_canvas_area canvas clen W t.x_offset t.y_offset t.width t.height
            else canvas)
            clen W H px (fw2 * fh2 * 4) fw2 fh2 t.x_offset t.y_offset t.blend)
        (acc ++ [⟨⟨W, H,
          blend_frame_onto_canvas
            (if t.dispose_background then
              clear_canvas_area canvas clen W t.x_offset t.y_offset t.width t.height
            else canvas)
            clen W H px (fw2 * fh2 * 4) fw2 fh2 t.x_offset t.y_offset t.blend⟩,
          t.duration⟩])
        (fun u hu => hall u (List.mem_cons_of_mem t hu))
    refine ⟨fs, ?_, ?_⟩
    · simp only [runTiles, htrip, create_image_from_raw, if_pos hfit]
      exact hrun
    · simp only [List.length_cons]
      simp at hlen
      omega

/-- If some remaining tile fails to decode, the frame loop never returns a
successful (partial) frame list. -/
theorem runTiles_no_partial (W H clen : Nat) :
    ∀ (ts : List Tile) (canvas : Nat → Nat) (acc : List OutFrame) (bad : Tile),
      bad ∈ ts → bad.decoded = none →
      ∀ fs, (runTiles W H clen ts canvas acc).1 ≠ .ok fs := by
  intro ts
  induction ts with
  | nil =>
    intro canvas acc bad hmem
    exact absurd hmem (List.not_mem_nil bad)
  | cons t rest ih =>
    intro canvas acc bad hmem hbad fs hok
    cases hdec : t.decoded with
    | none => simp [runTiles, hdec] at hok
    | some trip =>
      obtain ⟨fw2, fh2, px⟩ := trip
      have hmem2 : bad ∈ rest := by
        rcases List.mem_cons.mp hmem with heq | hr
        · rw [heq] at hbad; rw [hbad] at hdec; cases hdec
        · exact hr
      simp only [runTiles, hdec, create_image_from_raw] at hok
      by_cases hfit : W * H * 4 ≤ clen
      · rw [if_pos hfit] at hok
        exact ih _ _ bad hmem2 hbad fs hok
      · rw [if_neg hfit] at hok
        simp at hok

/-- When the tiles before the first undecodable one all decode and the
canvas length check passes, the frame loop aborts with the
frame-decode-failure message, releasing both handles. -/
theorem runTiles_first_bad (W H clen : Nat) (hfit : W * H * 4 ≤ clen) :
    ∀ (pre : List Tile) (bad : Tile) (post : List Tile) (canvas : Nat → Nat)
      (acc : List OutFrame),
      (∀ t ∈ pre, t.decoded ≠ none) → bad.decoded = none →
      runTiles W H clen (pre ++ bad :: post) canvas acc =
        (.error "Failed to decode frame", ⟨true, true⟩) := by
  intro pre
  induction pre with
  | nil =>
    intro bad post canvas acc _ hbad
    simp [runTiles, hbad]
  | cons t rest ih =>
    intro bad post canvas acc hall hbad
    have hdec := hall t (List.mem_cons_self t rest)
    obtain ⟨trip, htrip⟩ := Option.ne_none_iff_exists'.mp hdec
    obtain ⟨fw2, fh2, px⟩ := trip
    simp only [List.cons_append, runTiles, htrip, create_image_from_raw, if_pos hfit]
    exact ih bad post _ _ (fun u hu => hall u (List.mem_cons_of_mem t hu)) hbad

/-! ### Claim theorems -/

/-- C1: the claim states that before blending tile `i` the compositor
applies the disposal method recorded on tile `i-1` (clearing tile `i-1`'s
rectangle when it is Background), skips the step for tile 0, and never
applies the current tile's own disposal method before blending it.  The
code does the opposite: it keys the clear on the *current* tile's
`dispose_method` and rectangle (`decoder.rs` lines 133-144), for every
tile including the first.  At the concrete two-tile input `c1demux`
(tile 0 paints pixel 0 red and records Background disposal; tile 1 paints
pixel 1 and records None), the decoder's second frame keeps pixel 0 opaque
red, while the claimed previous-tile semantics (spec section 4.4, modelled
by `specCompose`) clears it to transparent. -/
theorem c1_disposal_applied_to_current_tile :
    framePixel (WebpDecoder.decode (some c1demux)) 1 0 = some (255, 0, 0, 255) ∧
    specFramePixel (specCompose 2 1 8 none c1demux.tiles (fun _ => 0)) 1 0 =
      some (0, 0, 0, 0) ∧
    framePixel (WebpDecoder.decode (some c1demux)) 1 0 ≠
      specFramePixel (specCompose 2 1 8 none c1demux.tiles (fun _ => 0)) 1 0 := by
  refine ⟨by decide, by decide, by decide⟩

/-- C2 counterexample: the claim says a single-frame animation gets the
fixed default duration of 100 ms; on `c2demux`, whose only tile carries
`duration = 42`, the decoder emits duration 42. -/
theorem c2_duration_not_defaulted :
    durationsOf (WebpDecoder.decode (some c2demux)) = some [42] ∧
    durationsOf (WebpDecoder.decode (some c2demux)) ≠ some [100] := by
  refine ⟨by decide, by decide⟩

/-- C2 (amended): each OutputFrame's duration is read directly from the
iterator's per-frame `duration` field (`decoder.rs` line 169); no
timestamp-delta derivation and no single-frame 100 ms default exist. -/
theorem c2_durations_from_iterator (d : Demuxed) (fs : List OutFrame)
    (hok : WebpDecoder.decode (some d) = .ok fs) :
    fs.map OutFrame.duration = d.tiles.map Tile.duration := by
  simp only [WebpDecoder.decode] at hok
  by_cases hfc : d.frame_count = 0
  · simp [decodeCore, hfc] at hok
  · cases htl : d.tiles with
    | nil => simp [decodeCore, hfc, htl] at hok
    | cons t rest =>
      simp only [decodeCore, if_neg hfc, htl] at hok
      have := runTiles_durations _ _ _ _ _ _ _ hok
      simpa [htl] using this

/-- C2 witness: the amended statement evaluated at `c2demux`. -/
theorem c2_amended_witness :
    c2frames.map OutFrame.duration = c2demux.tiles.map Tile.duration :=
  c2_durations_from_iterator c2demux c2frames rfl

/-- C3 counterexample: the claim's example says source `(255,0,0,128)`
blended over destination `(0,0,255,255)` composites to `(128,0,128,255)`;
the code's formula gives blue channel
`round(0 * 128/255 + 255 * 127/255) = 127`, not 128. -/
theorem c3_blend_example_blue_byte :
    blend_frame_onto_canvas (onePixel 0 0 255 255) 4 1 1 (onePixel 255 0 0 128)
      4 1 1 0 0 true 0 = 128 ∧
    blend_frame_onto_canvas (onePixel 0 0 255 255) 4 1 1 (onePixel 255 0 0 128)
      4 1 1 0 0 true 1 = 0 ∧
    blend_frame_onto_canvas (onePixel 0 0 255 255) 4 1 1 (onePixel 255 0 0 128)
      4 1 1 0 0 true 3 = 255 ∧
    blend_frame_onto_canvas (onePixel 0 0 255 255) 4 1 1 (onePixel 255 0 0 128)
      4 1 1 0 0 true 2 = 127 ∧
    blend_frame_onto_canvas (onePixel 0 0 255 255) 4 1 1 (onePixel 255 0 0 128)
      4 1 1 0 0 true 2 ≠ 128 := by
  refine ⟨by decide, by decide, by decide, by decide, by decide⟩

/-- C3 (amended): for every tile blended with `blend_method = Blend`, each
destination pixel inside the tile's rectangle becomes
`out.rgb = round(src.rgb * src.a/255 + dst.rgb * (1 - src.a/255))` with
`out.a` forced to 255, and for `NoBlend` the canvas pixel is replaced
verbatim including alpha — the claim's numeric example corrected to
`(128, 0, 127, 255)`. -/
theorem c3_blend_formula (c fr : Nat → Nat) (W H fw fh x0 y0 : Nat) (blend : Bool)
    (x y p q : Nat)
    (hWH : W * H * 4 < 4294967296) (hfwh : fw * fh * 4 < 4294967296)
    (hx : x < fw) (hy : y < fh) (hcx : x + x0 < W) (hcy : y + y0 < H)
    (hp : p = (y + y0) * W + (x + x0)) (hq : q = y * fw + x) :
    (blend = true →
      blend_frame_onto_canvas c (u32mod (W * H * 4)) W H fr (fw * fh * 4) fw fh x0 y0
        blend (4 * p + 3) = 255 ∧
      ∀ ch, ch < 3 →
        blend_frame_onto_canvas c (u32mod (W * H * 4)) W H fr (fw * fh * 4) fw fh x0 y0
          blend (4 * p + ch) =
          blendChannel (fr (4 * q + ch)) (c (4 * p + ch)) (fr (4 * q + 3))) ∧
    (blend = false →
      ∀ ch, ch < 4 →
        blend_frame_onto_canvas c (u32mod (W * H * 4)) W H fr (fw * fh * 4) fw fh x0 y0
          blend (4 * p + ch) = fr (4 * q + ch)) := by
  subst hp
  subst hq
  have hW1 : 0 < W := by omega
  have hH1 : 0 < H := by omega
  have hfw1 : 0 < fw := by omega
  have hfh1 : 0 < fh := by omega
  have hWH1 : W * H ≤ W * H * 4 := by omega
  have hfwh1 : fw * fh ≤ fw * fh * 4 := by omega
  have hWle : W ≤ W * H := Nat.le_mul_of_pos_right W hH1
  have hHle : H ≤ W * H := Nat.le_mul_of_pos_left H hW1
  have hfwle : fw ≤ fw * fh := Nat.le_mul_of_pos_right fw hfh1
  have hfhle : fh ≤ fw * fh := Nat.le_mul_of_pos_left fh hfw1
  have hpW : (y + y0) * W + (x + x0) < W * H := pixel_lt W H (y + y0) (x + x0) hcy hcx
  have hqF : y * fw + x < fw * fh := pixel_lt fw fh y x hy hx
  have hxx0 : u32mod (x + x0) = x + x0 := u32mod_eq (by omega)
  have hyy0 : u32mod (y + y0) = y + y0 := u32mod_eq (by omega)
  have hci : ((y + y0) * W + (x + x0)) * 4 =
      u32mod (u32mod (u32mod (y + y0) * W + u32mod (x + x0)) * 4) := by
    rw [hxx0, hyy0, u32mod_eq (show (y + y0) * W + (x + x0) < 4294967296 from by omega),
      u32mod_eq (show ((y + y0) * W + (x + x0)) * 4 < 4294967296 from by omega)]
  have hfi : (y * fw + x) * 4 = u32mod (u32mod (y * fw + x) * 4) := by
    rw [u32mod_eq (show y * fw + x < 4294967296 from by omega),
      u32mod_eq (show (y * fw + x) * 4 < 4294967296 from by omega)]
  have hcx2 : u32mod (x + x0) < W := by rw [hxx0]; exact hcx
  have hcy2 : u32mod (y + y0) < H := by rw [hyy0]; exact hcy
  have hg1 : ((y + y0) * W + (x + x0)) * 4 + 4 ≤ u32mod (W * H * 4) := by
    rw [u32mod_eq hWH]; omega
  have hg2 : (y * fw + x) * 4 + 4 ≤ fw * fh * 4 := by omega
  have hbv := blendCell_values (u32mod (W * H * 4)) W H fr (fw * fh * 4) fw x0 y0 blend
    x y c (((y + y0) * W + (x + x0)) * 4) ((y * fw + x) * 4) hci hfi hcx2 hcy2 hg1 hg2
  have hmain := blend_frame_onto_canvas_pixel c fr W H fw fh x0 y0 blend x y
    hWH hfwh hx hy hcx hcy
  constructor
  · intro hb
    obtain ⟨h255, hch⟩ := hbv.1 hb
    constructor
    · rw [hmain (4 * ((y + y0) * W + (x + x0)) + 3) (by omega) (by omega),
        show 4 * ((y + y0) * W + (x + x0)) + 3 = ((y + y0) * W + (x + x0)) * 4 + 3 from by
          ring]
      exact h255
    · intro ch hch3
      rw [hmain (4 * ((y + y0) * W + (x + x0)) + ch) (by omega) (by omega),
        show 4 * ((y + y0) * W + (x + x0)) + ch = ((y + y0) * W + (x + x0)) * 4 + ch from by
          ring, hch ch hch3,
        show (y * fw + x) * 4 + ch = 4 * (y * fw + x) + ch from by ring,
        show ((y + y0) * W + (x + x0)) * 4 + ch = 4 * ((y + y0) * W + (x + x0)) + ch from by
          ring,
        show (y * fw + x) * 4 + 3 = 4 * (y * fw + x) + 3 from by ring]
  · intro hb
    intro ch hch4
    rw [hmain (4 * ((y + y0) * W + (x + x0)) + ch) (by omega) (by omega),
      show 4 * ((y + y0) * W + (x + x0)) + ch = ((y + y0) * W + (x + x0)) * 4 + ch from by
        ring, hbv.2 hb ch hch4,
      show (y * fw + x) * 4 + ch = 4 * (y * fw + x) + ch from by ring]

/-- C3 witness: the amended per-pixel formula applied at the spec's own
example, a 1×1 Blend tile with source `(255,0,0,128)` over destination
`(0,0,255,255)`; the blue channel evaluates to 127. -/
theorem c3_witness :
    blend_frame_onto_canvas (onePixel 0 0 255 255) (u32mod (1 * 1 * 4)) 1 1
      (onePixel 255 0 0 128) (1 * 1 * 4) 1 1 0 0 true (4 * 0 + 2) =
      blendChannel (onePixel 255 0 0 128 (4 * 0 + 2)) (onePixel 0 0 255 255 (4 * 0 + 2))
        (onePixel 255 0 0 128 (4 * 0 + 3)) ∧
    blendChannel (onePixel 255 0 0 128 (4 * 0 + 2)) (onePixel 0 0 255 255 (4 * 0 + 2))
      (onePixel 255 0 0 128 (4 * 0 + 3)) = 127 :=
  ⟨((c3_blend_formula (onePixel 0 0 255 255) (onePixel 255 0 0 128) 1 1 1 1 0 0 true
      0 0 0 0 (by decide) (by decide) (by decide) (by decide) (by decide) (by decide)
      (by decide) (by decide)).1 rfl).2 2 (by decide),
   by decide⟩

/-- C4: for every valid container (declared frame count `N ≥ 1` matching
the `N` tiles the iterator yields, every tile decodable, canvas buffer
representable), `decode()` returns exactly `N` frames — one snapshot per
tile, with no constraint on the tiles' rectangles, so a fully
out-of-canvas tile still yields a snapshot; and when the declared frame
count is 0, `decode()` returns the NoFramesFound error rather than an
empty list. -/
theorem c4_frame_count (d : Demuxed) (N : Nat)
    (hN : d.frame_count = N) (hN1 : 1 ≤ N) (hlen : d.tiles.length = N)
    (hdec : ∀ t ∈ d.tiles, t.decoded ≠ none)
    (hfit : d.canvas_width * d.canvas_height * 4 < 4294967296) :
    (∃ fs, WebpDecoder.decode (some d) = .ok fs ∧ fs.length = N) ∧
    (∀ d0 : Demuxed, d0.frame_count = 0 →
      WebpDecoder.decode (some d0) = .error "No frames found in the animation") := by
  constructor
  · have hfc : ¬ d.frame_count = 0 := by omega
    cases htl : d.tiles with
    | nil =>
      rw [htl] at hlen
      simp at hlen
      omega
    | cons t rest =>
      have hfit2 : d.canvas_width * d.canvas_height * 4 ≤
          u32mod (d.canvas_width * d.canvas_height * 4) := by
        rw [u32mod_eq hfit]
      rw [htl] at hdec
      obtain ⟨fs, hrun, hlenfs⟩ :=
        runTiles_ok d.canvas_width d.canvas_height
          (u32mod (d.canvas_width * d.canvas_height * 4)) hfit2
          (t :: rest) (fun _ => 0) [] hdec
      refine ⟨fs, ?_, ?_⟩
      · simp only [WebpDecoder.decode, decodeCore, if_neg hfc, htl, hrun]
      · rw [htl] at hlen
        simp only [List.length_cons] at hlen
        simp at hlenfs
        omega
  · intro d0 h0
    simp [WebpDecoder.decode, decodeCore, h0]

/-- C4 witness: the frame-count property at the concrete one-frame
container `c4demux`. -/
theorem c4_witness :
    ∃ fs, WebpDecoder.decode (some c4demux) = .ok fs ∧ fs.length = 1 :=
  (c4_frame_count c4demux 1 rfl (by decide) rfl
    (by
      intro t ht
      simp only [c4demux, List.mem_singleton] at ht
      subst ht
      simp)
    (by decide)).1

/-- C5: for all tile offsets and dimensions, including malformed ones,
neither the disposal-clear step nor the blend step writes any byte at or
beyond `W * H * 4` (the canvas buffer as allocated by `decode`, whose
length never exceeds `W * H * 4`); out-of-bounds source pixels are
silently dropped by the guards. -/
theorem c5_no_out_of_bounds_writes (c fr : Nat → Nat)
    (W H x0 y0 w h fw fh : Nat) (blend : Bool) (i : Nat)
    (hi : W * H * 4 ≤ i) :
    clear_canvas_area c (u32mod (W * H * 4)) W x0 y0 w h i = c i ∧
    blend_frame_onto_canvas c (u32mod (W * H * 4)) W H fr (fw * fh * 4) fw fh x0 y0
      blend i = c i := by
  have hlen : u32mod (W * H * 4) ≤ i := le_trans (u32mod_le (W * H * 4)) hi
  constructor
  · unfold clear_canvas_area
    refine foldl_preserve_pred _ (fun j => j = i) _ c ?_ _ rfl
    intro crow y' _ j hj
    rw [hj]
    refine foldl_preserve_pred _ (fun j => j = i) _ crow ?_ _ rfl
    intro c'' x' _ j hj
    rw [hj]
    rcases clearCell_cases (u32mod (W * H * 4)) W x' y' c'' i with heq | ⟨hg, _, hlt, _⟩
    · exact heq
    · omega
  · unfold blend_frame_onto_canvas
    refine foldl_preserve_pred _ (fun j => j = i) _ c ?_ _ rfl
    intro crow y' _ j hj
    rw [hj]
    refine foldl_preserve_pred _ (fun j => j = i) _ crow ?_ _ rfl
    intro c'' x' _ j hj
    rw [hj]
    rcases blendCell_cases (u32mod (W * H * 4)) W H fr (fw * fh * 4) fw x0 y0 blend
      x' y' c'' i with heq | ⟨_, _, hg, _, _, hlt⟩
    · exact heq
    · omega

/-- C5 witness: a clear with a malformed offset (`x_offset = 5` on a 2×1
canvas) and a blend of an oversized 3×3 tile leave the byte at index 20,
beyond the 8-byte canvas buffer, unchanged. -/
theorem c5_witness :
    clear_canvas_area (onePixel 1 2 3 4) (u32mod (2 * 1 * 4)) 2 5 0 9 1 20 =
      onePixel 1 2 3 4 20 ∧
    blend_frame_onto_canvas (onePixel 1 2 3 4) (u32mod (2 * 1 * 4)) 2 1 (fun _ => 6)
      (3 * 3 * 4) 3 3 5 0 true 20 = onePixel 1 2 3 4 20 :=
  c5_no_out_of_bounds_writes (onePixel 1 2 3 4) (fun _ => 6) 2 1 5 0 9 1 3 3 true 20
    (by decide)

/-- C6 witness: the clear property at a concrete 2×1 canvas and the
rectangle `(1, 0, 1, 1)`: the byte of the pixel inside the rectangle is
zeroed, the byte of the pixel outside it is untouched. -/
theorem c6_witness :
    clear_canvas_area (onePixel 9 9 9 9) (u32mod (2 * 1 * 4)) 2 1 0 1 1
      (4 * (0 * 2 + 1) + 0) = 0 ∧
    clear_canvas_area (onePixel 9 9 9 9) (u32mod (2 * 1 * 4)) 2 1 0 1 1
      (4 * (0 * 2 + 0) + 0) = onePixel 9 9 9 9 (4 * (0 * 2 + 0) + 0) := by
  constructor
  · have h := clear_canvas_area_pixel (onePixel 9 9 9 9) 2 1 1 0 1 1 1 0 0
      (by decide) (by decide) (by decide) (by decide) (by decide) (by decide)
    simpa using h
  · have h := clear_canvas_area_pixel (onePixel 9 9 9 9) 2 1 1 0 1 1 0 0 0
      (by decide) (by decide) (by decide) (by decide) (by decide) (by decide)
    simpa using h

/-- C7: the claim states that every exit path of `decode()` releases all
held iterator and demuxer handles.  The snapshot step's
`create_image_from_raw(...).ok_or(...)?` (`decoder.rs` lines 163-164)
returns mid-loop without any release call.  The path is reachable: on a
declared 65536×16384 canvas the `u32` product `W * H * 4` wraps to 0, so
the canvas vector is empty, the snapshot's length check fails, and decode
returns the image-creation error with both the iterator and the demuxer
still held. -/
theorem c7_snapshot_failure_leaks_handles :
    resultMsg (decodeCore c7demux).1 = some "Failed to create image from canvas data" ∧
    (decodeCore c7demux).2.demuxReleased = false ∧
    (decodeCore c7demux).2.iterReleased = false := by
  refine ⟨rfl, rfl, rfl⟩

/-- C8: a buffer whose chunk index the demuxer rejects yields the
MalformedContainer error ("Failed to create WebPDemuxer"); when the first
undecodable tile is reached (all earlier tiles decodable, canvas
representable) decode aborts with FrameDecodeFailed ("Failed to decode
frame"); and whenever any tile fails to decode, decode never returns a
successful partial frame list.  All paths return typed errors — the model
is a total function, no path diverges. -/
theorem c8_failure_modes :
    (WebpDecoder.decode none = .error "Failed to create WebPDemuxer") ∧
    (∀ (d : Demuxed) (pre : List Tile) (bad : Tile) (post : List Tile),
      d.tiles = pre ++ bad :: post → (∀ t ∈ pre, t.decoded ≠ none) →
      bad.decoded = none → d.frame_count ≠ 0 →
      d.canvas_width * d.canvas_height * 4 < 4294967296 →
      WebpDecoder.decode (some d) = .error "Failed to decode frame") ∧
    (∀ (d : Demuxed) (bad : Tile), bad ∈ d.tiles → bad.decoded = none →
      ∀ fs, WebpDecoder.decode (some d) ≠ .ok fs) := by
  refine ⟨rfl, ?_, ?_⟩
  · intro d pre bad post htl hpre hbad hfc hfit
    have hfit2 : d.canvas_width * d.canvas_height * 4 ≤
        u32mod (d.canvas_width * d.canvas_height * 4) := by
      rw [u32mod_eq hfit]
    cases pre with
    | nil =>
      simp only [List.nil_append] at htl
      have hrb := runTiles_first_bad d.canvas_width d.canvas_height
        (u32mod (d.canvas_width * d.canvas_height * 4)) hfit2 [] bad post
        (fun _ => 0) [] (by intro t ht; exact absurd ht (List.not_mem_nil t)) hbad
      simp only [List.nil_append] at hrb
      simp only [WebpDecoder.decode, decodeCore, if_neg hfc, htl, hrb]
    | cons t pre2 =>
      simp only [List.cons_append] at htl
      have hrb := runTiles_first_bad d.canvas_width d.canvas_height
        (u32mod (d.canvas_width * d.canvas_height * 4)) hfit2 (t :: pre2) bad post
        (fun _ => 0) [] hpre hbad
      simp only [List.cons_append] at hrb
      simp only [WebpDecoder.decode, decodeCore, if_neg hfc, htl, hrb]
  · intro d bad hmem hbad fs hok
    simp only [WebpDecoder.decode] at hok
    by_cases hfc : d.frame_count = 0
    · simp [decodeCore, hfc] at hok
    · cases htl : d.tiles with
      | nil =>
        rw [htl] at hmem
        exact absurd hmem (List.not_mem_nil bad)
      | cons t rest =>
        simp only [decodeCore, if_neg hfc, htl] at hok
        exact runTiles_no_partial d.canvas_width d.canvas_height
          (u32mod (d.canvas_width * d.canvas_height * 4)) (t :: rest)
          (fun _ => 0) [] bad (htl ▸ hmem) hbad fs hok

/-- C8 witness: the failure modes at concrete inputs — the null demuxer
outcome and the one-tile container `c8demux` whose tile does not decode. -/
theorem c8_witness :
    WebpDecoder.decode (some c8demux) = .error "Failed to decode frame" ∧
    WebpDecoder.decode none = .error "Failed to create WebPDemuxer" :=
  ⟨c8_failure_modes.2.1 c8demux [] ⟨0, 0, 1, 1, false, false, 0, none⟩ [] rfl
      (by intro t ht; exact absurd ht (List.not_mem_nil t)) rfl (by decide) (by decide),
    c8_failure_modes.1⟩

/-- C9: `decode` is deterministic — it is a pure function of the demuxer
outcome of the byte buffer, so two runs on the same buffer yield frame
sequences of equal length whose frames (pixels and durations alike) are
identical. -/
theorem c9_decode_deterministic (r : Option Demuxed) (fs1 fs2 : List OutFrame)
    (h1 : WebpDecoder.decode r = .ok fs1) (h2 : WebpDecoder.decode r = .ok fs2) :
    fs1.length = fs2.length ∧ fs1 = fs2 := by
  rw [h1] at h2
  cases h2
  exact ⟨rfl, rfl⟩

/-- C9 witness: determinism applied to the concrete container `c9demux`. -/
theorem c9_witness : c9frames.length = c9frames.length ∧ c9frames = c9frames :=
  c9_decode_deterministic (some c9demux) c9frames c9frames rfl rfl

/-- C10: `from_file` rejects an empty frame list and otherwise starts with
`current_frame_index = 0`, which is strictly below `frames.len()`; and
`update` preserves `current_frame_index < frames.len()` (and the frame
list itself) whether or not the elapsed-time test fires, in both the
looping case (wrap to 0) and the non-looping case (hold at
`frames.len() - 1`), so indexing `frames[current_frame_index]` stays in
bounds. -/
theorem c10_index_invariant :
    (∀ (dr : Except String (List OutFrame)) (a : WebpAnimation),
      WebpAnimation.from_file dr = .ok a →
      a.current_frame_index = 0 ∧ a.current_frame_index < a.frames.length) ∧
    (∀ (a : WebpAnimation) (advance : Bool),
      a.current_frame_index < a.frames.length →
      (a.update advance).current_frame_index < (a.update advance).frames.length ∧
      (a.update advance).frames = a.frames) := by
  constructor
  · intro dr a hok
    cases dr with
    | error e => simp [WebpAnimation.from_file] at hok
    | ok frames =>
      simp only [WebpAnimation.from_file] at hok
      by_cases hemp : frames.isEmpty
      · rw [if_pos hemp] at hok
        cases hok
      · rw [if_neg hemp] at hok
        cases hok
        refine ⟨rfl, ?_⟩
        have hne : frames ≠ [] := by
          intro hnil
          rw [hnil] at hemp
          exact hemp rfl
        exact List.length_pos.mpr hne
  · intro a advance hlt
    cases advance with
    | false => exact ⟨hlt, rfl⟩
    | true =>
      have hupd : a.update true =
          if a.current_frame_index + 1 ≥ a.frames.length then
            (if a.is_looping then { a with current_frame_index := 0 }
             else { a with current_frame_index := a.frames.length - 1 })
          else { a with current_frame_index := a.current_frame_index + 1 } := rfl
      rw [hupd]
      split_ifs with h1 h2 <;> exact ⟨by simp; omega, rfl⟩

/-- C10 witness: the invariant at a concrete one-frame animation, through
`from_file` and one advancing `update` call. -/
theorem c10_witness :
    ((WebpAnimation.mk [c10frame] 0 true).current_frame_index = 0 ∧
      (WebpAnimation.mk [c10frame] 0 true).current_frame_index <
        (WebpAnimation.mk [c10frame] 0 true).frames.length) ∧
    (((WebpAnimation.mk [c10frame] 0 true).update true).current_frame_index <
        ((WebpAnimation.mk [c10frame] 0 true).update true).frames.length ∧
      ((WebpAnimation.mk [c10frame] 0 true).update true).frames =
        (WebpAnimation.mk [c10frame] 0 true).frames) :=
  ⟨c10_index_invariant.1 (.ok [c10frame]) (WebpAnimation.mk [c10frame] 0 true) rfl,
    c10_index_invariant.2 (WebpAnimation.mk [c10frame] 0 true) true (by decide)⟩
